import Mathlib

/-!
Verification of the gateway-api-inference-extension endpoint picker.

Shallow embedding of:
- the scheduling package (`pkg/ext-proc/scheduling`): the filter engine,
  the concrete policy tree (`defaultFilter`, `sheddableRequestFilter`, ...)
  and `Scheduler.Schedule`;
- the request handler `Server.HandleRequestBody`
  (`pkg/ext-proc/handlers`);
- the metrics recording functions (`pkg/ext-proc/metrics/metrics.go`).

Conventions:
- Go byte slices are modelled as Lean `String`s; `len` becomes
  `String.length`.
- Go `float64` quantities (`KVCacheUsagePercent`, elapsed seconds) are
  modelled as `ℚ`, so the threshold comparisons of the scheduler are exact.
- Go errors are a structure carrying the message and, when the source
  attaches one, a gRPC status code.
- Randomness (`rand.Intn`, the weighted-draw random value) is passed in as
  an explicit argument; the Go source draws it from a thread-safe source.
-/

namespace InfExt

/-- gRPC status codes attached to errors by the source
    (`status.Errorf(codes.ResourceExhausted, ...)`). -/
inductive StatusCode where
  | resourceExhausted
  deriving DecidableEq, Repr

/-- A Go `error` value: the message, plus the gRPC status code when the
    source created the error through `status.Errorf`. -/
structure Err where
  code : Option StatusCode
  msg : String
  deriving DecidableEq, Repr

/-- `backend.Pod`: a backend model-server instance with its network
    address. -/
structure Pod where
  name : String
  address : String
  deriving DecidableEq, Repr

/-- `backend.PodMetrics`: the live per-pod view read by the scheduler
    (spec §3).  `kvCacheUsagePercent` is Go `float64`, modelled as `ℚ`. -/
structure PodMetrics where
  pod : Pod
  waitingQueueSize : Int
  kvCacheUsagePercent : ℚ
  activeModels : List String
  maxActiveModels : Int
  deriving DecidableEq, Repr

/-- `scheduling.LLMRequest`: the transient per-request record. -/
structure LLMRequest where
  model : String
  resolvedTargetModel : String
  critical : Bool
  deriving DecidableEq, Repr

/-- A `filterFunc`: `(request, pods) → (pods, error)` (the `logr.Logger`
    argument of the Go signature is dropped — it only logs). -/
def FilterFn : Type :=
  LLMRequest → List PodMetrics → List PodMetrics × Option Err

/-- The `filter` struct of the scheduling package: a name, a filter
    function, and up to three optional successor nodes
    (`nextOnSuccess`, `nextOnFailure`, `nextOnSuccessOrFailure`). -/
inductive FilterNode where
  | mk (name : String) (fn : FilterFn)
      (nextOnSuccess nextOnFailure nextOnSuccessOrFailure : Option FilterNode)

def FilterNode.name : FilterNode → String
  | .mk n _ _ _ _ => n

def FilterNode.fn : FilterNode → FilterFn
  | .mk _ f _ _ _ => f

/-- Modelled from the spec: the traversal `filter.Filter` of the scheduling
    package is not under `src/`; §4.4 pins it down.  Apply the node's
    function; success = non-empty result and no error.  On success recurse
    through `nextOnSuccess` (falling back to `nextOnSuccessOrFailure`) with
    the returned subset; on failure recurse through `nextOnFailure`
    (falling back to `nextOnSuccessOrFailure`) with the **original** input
    pods; with no successor, return the (possibly empty) subset and the
    error as-is. -/
def FilterNode.eval : FilterNode → LLMRequest → List PodMetrics →
    List PodMetrics × Option Err
  | .mk _ fn onS onF onSF, req, pods =>
    match fn req pods with
    | (filtered, err) =>
      if err.isNone ∧ filtered ≠ [] then
        match onS, onSF with
        | some nxt, _ => nxt.eval req filtered
        | none, some nxt => nxt.eval req filtered
        | none, none => (filtered, err)
      else
        match onF, onSF with
        | some nxt, _ => nxt.eval req pods
        | none, some nxt => nxt.eval req pods
        | none, none => (filtered, err)

/-- Modelled from the spec (§4.4, item 4): `toFilterFunc` lifts a pod
    predicate to a filter function returning all pods matching the
    predicate. -/
def toFilterFunc (pp : LLMRequest → PodMetrics → Bool) : FilterFn :=
  fun req pods => (pods.filter (pp req), none)

/-! ### Policy constants (scheduling package, `part_000` lines 17-26) -/

def kvCacheThreshold : ℚ := 8 / 10

def queueThresholdCritical : Int := 5

def queueingThresholdLoRA : Int := 50

/-! ### Pod predicates and selectors

The predicate/selector functions named by the policy tree live in the
scheduling package's `filter.go`, which is not under `src/`; they are
modelled from spec §4.5. -/

/-- Modelled from the spec: `criticalRequestPredicate` — the root
    criticality gate keeps every pod for a `Critical` request. -/
def criticalRequestPredicate : LLMRequest → PodMetrics → Bool :=
  fun req _ => req.critical

/-- Modelled from the spec: `lowQueueingPodPredicate` — pods with queue
    at most `queueingThresholdLoRA`.  (§9 leaves the exact relation to the
    fleet minimum open; the spec's explicit bound is used.) -/
def lowQueueingPodPredicate : LLMRequest → PodMetrics → Bool :=
  fun _ pod => pod.waitingQueueSize ≤ queueingThresholdLoRA

/-- Modelled from the spec: `loRAAffinityPredicate` — a pod qualifies if
    the requested `ResolvedTargetModel` is in its `ActiveModels`. -/
def loRAAffinityPredicate : LLMRequest → PodMetrics → Bool :=
  fun req pod => pod.activeModels.contains req.resolvedTargetModel

/-- Modelled from the spec: `canAcceptNewLoraPredicate` — a pod qualifies
    if `|ActiveModels| < MaxActiveModels`. -/
def canAcceptNewLoraPredicate : LLMRequest → PodMetrics → Bool :=
  fun _ pod => (pod.activeModels.length : Int) < pod.maxActiveModels

/-- Modelled from the spec: `lowLoRACostPredicate` — union of pods that
    already have the adapter loaded or have spare adapter capacity. -/
def lowLoRACostPredicate : LLMRequest → PodMetrics → Bool :=
  fun req pod =>
    pod.activeModels.contains req.resolvedTargetModel ∨
      (pod.activeModels.length : Int) < pod.maxActiveModels

/-- Modelled from the spec: the sheddable admission predicate
    `noQueueAndLessThanKVCacheThresholdPredicate` — keep pods with
    `WaitingQueueSize ≤ queueThreshold` AND
    `KVCacheUsagePercent < kvCacheThreshold`. -/
def noQueueAndLessThanKVCacheThresholdPredicate
    (queueThreshold : Int) (kvCacheThresh : ℚ) :
    LLMRequest → PodMetrics → Bool :=
  fun _ pod =>
    pod.waitingQueueSize ≤ queueThreshold ∧
      pod.kvCacheUsagePercent < kvCacheThresh

/-- Modelled from the spec: `leastQueuingFilterFunc` — keep the pods tied
    for minimum `WaitingQueueSize`. -/
def leastQueuingFilterFunc : FilterFn :=
  fun _ pods =>
    match (pods.map (·.waitingQueueSize)).min? with
    | none => ([], none)
    | some m => (pods.filter (fun p => p.waitingQueueSize = m), none)

/-- Modelled from the spec: `leastKVCacheFilterFunc` — keep the pods tied
    for minimum `KVCacheUsagePercent`. -/
def leastKVCacheFilterFunc : FilterFn :=
  fun _ pods =>
    match (pods.map (·.kvCacheUsagePercent)).min? with
    | none => ([], none)
    | some m => (pods.filter (fun p => p.kvCacheUsagePercent = m), none)

/-! ### The policy tree (`part_000` lines 28-94) -/

/-- `queueLoRAAndKVCacheFilter`: least queue → low cost LoRA → least KV
    cache. -/
def queueLoRAAndKVCacheFilter : FilterNode :=
  .mk "least queuing" leastQueuingFilterFunc none none
    (some (.mk "low cost LoRA" (toFilterFunc lowLoRACostPredicate) none none
      (some (.mk "least KV cache percent" leastKVCacheFilterFunc
        none none none))))

/-- `queueAndKVCacheFilter`: least queue → least KV cache. -/
def queueAndKVCacheFilter : FilterNode :=
  .mk "least queuing" leastQueuingFilterFunc none none
    (some (.mk "least KV cache percent" leastKVCacheFilterFunc
      none none none))

/-- `lowLatencyFilter`: the low-latency branch for critical requests. -/
def lowLatencyFilter : FilterNode :=
  .mk "low queueing filter" (toFilterFunc lowQueueingPodPredicate)
    (some (.mk "affinity LoRA" (toFilterFunc loRAAffinityPredicate)
      (some queueAndKVCacheFilter)
      (some (.mk "can accept LoRA Adapter"
        (toFilterFunc canAcceptNewLoraPredicate)
        none none (some queueAndKVCacheFilter)))
      none))
    (some queueLoRAAndKVCacheFilter)
    none

/-- The anonymous "drop request" node of `sheddableRequestFilter`: returns
    the empty set with a `ResourceExhausted` error. -/
def dropRequestFilter : FilterNode :=
  .mk "drop request"
    (fun _ _ => ([], some ⟨some .resourceExhausted,
      "dropping request due to limited backend resources"⟩))
    none none none

/-- `sheddableRequestFilter`: admission predicate, then the heavy branch on
    success and the drop node on failure. -/
def sheddableRequestFilter : FilterNode :=
  .mk "has capacity for sheddable requests"
    (toFilterFunc (noQueueAndLessThanKVCacheThresholdPredicate
      queueThresholdCritical kvCacheThreshold))
    (some queueLoRAAndKVCacheFilter) (some dropRequestFilter) none

/-- `defaultFilter`: criticality gate at the root. -/
def defaultFilter : FilterNode :=
  .mk "critical request" (toFilterFunc criticalRequestPredicate)
    (some lowLatencyFilter) (some sheddableRequestFilter) none

/-! ### `Scheduler.Schedule` (`part_000` lines 115-128) -/

/-- `Scheduler.Schedule`: run the filter tree over the current pod
    snapshot; on error return it; on an empty successful result return the
    "filter returned zero pods on success" error; otherwise return the pod
    of the element at `rand.Intn(len(pods))`, modelled as index
    `r % pods.length` for the supplied random value `r`. -/
def schedule (filt : FilterNode) (req : LLMRequest)
    (allPods : List PodMetrics) (r : Nat) : Except Err Pod :=
  match filt.eval req allPods with
  | (_, some e) => .error e
  | (pods, none) =>
    if h : pods.length = 0 then
      .error ⟨none, "filter returned zero pods on success"⟩
    else
      .ok (pods.get ⟨r % pods.length, Nat.mod_lt r
        (Nat.pos_of_ne_zero h)⟩).pod

/-! ### Backend model catalog (`InferenceModel`, weighted draw, criticality)

The `backend` package's datastore and helpers are not under `src/`; the
types and the two helpers used by the handler are modelled from spec
§3/§4.6. -/

/-- Criticality classes of an `InferenceModel` (spec §3). -/
inductive Criticality where
  | critical
  | sheddable
  deriving DecidableEq, Repr

/-- A weighted target-model entry `{Name, Weight}`; the spec fixes integer
    weights ≥ 0, so `weight : ℕ`. -/
structure TargetModel where
  name : String
  weight : Nat
  deriving DecidableEq, Repr

/-- An `InferenceModel` resource: `metadata.name`, `spec.modelName`,
    `spec.criticality` (optional), `spec.targetModels`. -/
structure InferenceModel where
  name : String
  modelName : String
  criticality : Option Criticality
  targetModels : List TargetModel
  deriving DecidableEq, Repr

/-- Modelled from the spec: `backend.IsCritical` — a request is critical
    iff the model's criticality is `Critical` (unset defaults to
    sheddable). -/
def isCritical (m : InferenceModel) : Bool :=
  m.criticality = some .critical

/-- Total weight of a target-model list. -/
def weightSum (tms : List TargetModel) : Nat :=
  (tms.map (·.weight)).sum

/-- Cumulative selection loop of the weighted draw: walk the entries,
    subtracting each weight from the random value until it falls inside an
    entry's band; return `""` if the list is exhausted. -/
def drawLoop : List TargetModel → Nat → String
  | [], _ => ""
  | t :: rest, r => if r < t.weight then t.name else drawLoop rest (r - t.weight)

/-- Modelled from the spec: `backend.RandomWeightedDraw` — pick an entry
    with probability `weight_i / Σ weight_j`; the uniformly drawn random
    value is passed in as `r` and reduced into `[0, Σ weight_j)`.  Returns
    `""` when all weights are zero (the handler turns that into an
    error). -/
def randomWeightedDraw (tms : List TargetModel) (r : Nat) : String :=
  let total := weightSum tms
  if total = 0 then "" else drawLoop tms (r % total)

/-! ### JSON bodies

`HandleRequestBody` unmarshals the body into `map[string]interface{}`.
The decoded top-level object is modelled as an association list
`List (String × JsonVal)` (a Go map has unique keys); `json.Marshal` is
modelled by `jsonMarshal`.  (Go emits map keys in sorted order; the
embedding emits fields in stored order, which stands for that canonical
order — no claim depends on the byte layout of re-marshalled output.) -/

inductive JsonVal where
  | str (s : String)
  | num (n : Int)
  | bool (b : Bool)
  | null
  | arr (elems : List JsonVal)
  | obj (fields : List (String × JsonVal))
  deriving Repr

/-- JSON string quoting with the two escapes every encoder must emit. -/
def jsonQuote (s : String) : String :=
  "\"" ++ String.join (s.toList.map fun c =>
    if c = '"' then "\\\"" else if c = '\\' then "\\\\" else String.singleton c) ++ "\""

mutual

/-- `json.Marshal` of a decoded value. -/
def jsonMarshal : JsonVal → String
  | .str s => jsonQuote s
  | .num n => toString n
  | .bool true => "true"
  | .bool false => "false"
  | .null => "null"
  | .arr xs => "[" ++ jsonMarshalElems xs ++ "]"
  | .obj fs => "\x7b" ++ jsonMarshalFields fs ++ "\x7d"

def jsonMarshalElems : List JsonVal → String
  | [] => ""
  | [x] => jsonMarshal x
  | x :: y :: xs => jsonMarshal x ++ "," ++ jsonMarshalElems (y :: xs)

def jsonMarshalFields : List (String × JsonVal) → String
  | [] => ""
  | [(k, v)] => jsonQuote k ++ ":" ++ jsonMarshal v
  | (k, v) :: f :: fs =>
    jsonQuote k ++ ":" ++ jsonMarshal v ++ "," ++ jsonMarshalFields (f :: fs)

end

/-- Go map read `rb["model"]` on the decoded object. -/
def lookupField : List (String × JsonVal) → String → Option JsonVal
  | [], _ => none
  | (k, v) :: rest, key => if k = key then some v else lookupField rest key

/-- Go map write `rb[key] = v` on the decoded object: replace the value at
    the key (a decoded Go map holds each key once), or append it if
    absent. -/
def setField : List (String × JsonVal) → String → JsonVal →
    List (String × JsonVal)
  | [], key, v => [(key, v)]
  | (k, w) :: rest, key, v =>
    if k = key then (k, v) :: rest else (k, w) :: setField rest key v

/-! ### `Server.HandleRequestBody` (`pkg/ext-proc/handlers`, in
`src/pkg/ext-proc/server/runserver.go` lines 226-346) -/

/-- A `HeaderValueOption` entry of the header mutation. -/
structure HeaderValue where
  key : String
  rawValue : String
  deriving DecidableEq, Repr

/-- The parts of the emitted `ProcessingResponse` the handler fills in:
    the `set_headers` list, the body-mutation bytes, and the dynamic
    metadata fields. -/
structure ProcessingResponse where
  setHeaders : List HeaderValue
  bodyMutationBody : String
  dynamicMetadata : List (String × String)
  deriving DecidableEq, Repr

/-- The fields of `RequestContext` that `HandleRequestBody` records. -/
structure RequestContext where
  model : String
  resolvedTargetModel : String
  requestSize : Nat
  targetPod : Pod
  deriving DecidableEq, Repr

/-- `Server.HandleRequestBody`.  Inputs mirror the Go receiver and call
    environment: the configured `targetEndpointKey`, the datastore lookup
    `FetchModelData` (modelled from the spec: the datastore is not under
    `src/`; §4.1 makes it a name → `InferenceModel` lookup), the
    scheduler's filter tree and pod snapshot, the two random values
    (weighted draw, pod pick), the raw body bytes, and the result of
    `json.Unmarshal` on them (`none` = parse failure). -/
def handleRequestBody
    (targetEndpointKey : String)
    (fetchModelData : String → Option InferenceModel)
    (filt : FilterNode) (allPods : List PodMetrics)
    (drawRand podRand : Nat)
    (body : String) (unmarshalled : Option (List (String × JsonVal))) :
    Except Err (ProcessingResponse × RequestContext) :=
  match unmarshalled with
  | none => .error ⟨none, "failed to unmarshal request body"⟩
  | some rb =>
    match lookupField rb "model" with
    | some (.str model) =>
      match fetchModelData model with
      | none => .error ⟨none,
          "error finding a model object in InferenceModel for input " ++ model⟩
      | some modelObj =>
        let resolved : Except Err String :=
          if modelObj.targetModels.length > 0 then
            let mn := randomWeightedDraw modelObj.targetModels drawRand
            if mn = "" then
              .error ⟨none,
                "error getting target model name for model " ++ modelObj.name⟩
            else .ok mn
          else .ok model
        match resolved with
        | .error e => .error e
        | .ok modelName =>
          let llmReq : LLMRequest :=
            ⟨model, modelName, isCritical modelObj⟩
          let requestBody : String :=
            if llmReq.model = llmReq.resolvedTargetModel then body
            else jsonMarshal (.obj (setField rb "model" (.str modelName)))
          match schedule filt llmReq allPods podRand with
          | .error e => .error ⟨e.code, "failed to find target pod: " ++ e.msg⟩
          | .ok targetPod =>
            .ok (⟨[⟨targetEndpointKey, targetPod.address⟩,
                   ⟨"Content-Length", toString requestBody.length⟩],
                  requestBody,
                  [(targetEndpointKey, targetPod.address)]⟩,
                 ⟨llmReq.model, llmReq.resolvedTargetModel, body.length,
                  targetPod⟩)
    | _ => .error ⟨none, "model not found in request"⟩

/-! ### Metrics recording (`pkg/ext-proc/metrics/metrics.go`)

A histogram vector is modelled as the list of its observed samples, each
tagged with its `(model_name, target_model_name)` label pair.  Go
`time.Time` values are modelled as integer nanoseconds;
`complete.After(received)` is `received < complete`, and
`complete.Sub(received).Seconds()` is `(complete - received) / 1e9`. -/

/-- One observed histogram sample: the label pair and the value. -/
abbrev Sample (α : Type) : Type := (String × String) × α

/-- `RecordRequestLatencies` (lines 146-153): reject
    `!complete.After(received)` with an error and record nothing;
    otherwise observe the elapsed seconds. -/
def recordRequestLatencies (hist : List (Sample ℚ))
    (modelName targetModelName : String) (received complete : Int) :
    Option Err × List (Sample ℚ) :=
  if ¬ received < complete then
    (some ⟨none, "invalid request latency values"⟩, hist)
  else
    (none, hist ++ [((modelName, targetModelName),
      ((complete : ℚ) - (received : ℚ)) / 1000000000)])

/-- `RecordInputTokens` (lines 161-165): observe the size only when
    strictly positive. -/
def recordInputTokens (hist : List (Sample Int))
    (modelName targetModelName : String) (size : Int) : List (Sample Int) :=
  if size > 0 then hist ++ [((modelName, targetModelName), size)] else hist

/-- `RecordOutputTokens` (lines 168-172): observe the size only when
    strictly positive. -/
def recordOutputTokens (hist : List (Sample Int))
    (modelName targetModelName : String) (size : Int) : List (Sample Int) :=
  if size > 0 then hist ++ [((modelName, targetModelName), size)] else hist

/-! ## Theorems -/

/-- C8: for all time stamps `received` and `complete`,
    `RecordRequestLatencies` returns an error and observes nothing in the
    latency histogram whenever `complete ≤ received`; otherwise it observes
    exactly the elapsed duration in seconds (under its label pair) and
    returns no error. -/
theorem recordRequestLatencies_spec (hist : List (Sample ℚ))
    (m t : String) (received complete : Int) :
    (complete ≤ received →
      recordRequestLatencies hist m t received complete =
        (some ⟨none, "invalid request latency values"⟩, hist)) ∧
    (received < complete →
      recordRequestLatencies hist m t received complete =
        (none, hist ++ [((m, t),
          ((complete : ℚ) - (received : ℚ)) / 1000000000)])) := by
  constructor
  · intro h
    simp [recordRequestLatencies, not_lt.mpr h]
  · intro h
    simp [recordRequestLatencies, h]

/-- Witness for C8: a run with `complete ≤ received` is rejected and
    records nothing; a 2-second run records the sample `2`. -/
theorem recordRequestLatencies_spec_witness :
    recordRequestLatencies [] "m10" "t10" 5 3 =
      (some ⟨none, "invalid request latency values"⟩, []) ∧
    recordRequestLatencies [] "m10" "t10" 0 2000000000 =
      (none, [(("m10", "t10"), 2)]) := by
  constructor
  · exact (recordRequestLatencies_spec [] "m10" "t10" 5 3).1 (by norm_num)
  · have h := (recordRequestLatencies_spec [] "m10" "t10" 0 2000000000).2
      (by norm_num)
    rw [h]
    norm_num

/-- C9: `RecordInputTokens` and `RecordOutputTokens` observe a sample in
    their histograms if and only if the given size is strictly positive;
    a non-positive token count leaves the histograms untouched. -/
theorem recordTokens_spec (histIn histOut : List (Sample Int))
    (m t : String) (size : Int) :
    (0 < size →
      recordInputTokens histIn m t size = histIn ++ [((m, t), size)] ∧
      recordOutputTokens histOut m t size = histOut ++ [((m, t), size)]) ∧
    (size ≤ 0 →
      recordInputTokens histIn m t size = histIn ∧
      recordOutputTokens histOut m t size = histOut) := by
  constructor
  · intro h
    constructor <;> simp [recordInputTokens, recordOutputTokens, h]
  · intro h
    constructor <;> simp [recordInputTokens, recordOutputTokens, not_lt.mpr h]

/-- Witness for C9: a positive count is observed, a zero count is
    dropped. -/
theorem recordTokens_spec_witness :
    (recordInputTokens [] "m10" "t10" 7 = [(("m10", "t10"), 7)] ∧
      recordOutputTokens [] "m10" "t10" 7 = [(("m10", "t10"), 7)]) ∧
    (recordInputTokens [] "m10" "t10" 0 = [] ∧
      recordOutputTokens [] "m10" "t10" 0 = []) :=
  ⟨(recordTokens_spec [] [] "m10" "t10" 7).1 (by norm_num),
   (recordTokens_spec [] [] "m10" "t10" 0).2 (by norm_num)⟩

/-- Traversal helper: a failing node (empty result or error) with a
    `nextOnFailure` child recurses into it with the original input pods. -/
lemma eval_failure (nm : String) (fn : FilterFn)
    (onS onF onSF : Option FilterNode) (child : FilterNode)
    (req : LLMRequest) (pods res : List PodMetrics) (err : Option Err)
    (hfn : fn req pods = (res, err)) (hfail : err ≠ none ∨ res = [])
    (hchild : onF = some child) :
    FilterNode.eval (.mk nm fn onS onF onSF) req pods =
      child.eval req pods := by
  subst hchild
  rw [FilterNode.eval, hfn]
  have hcond : ¬ ((err.isNone : Prop) ∧ res ≠ []) := by
    rcases hfail with h | h
    · intro hc
      exact h (Option.isNone_iff_eq_none.mp hc.1)
    · intro hc
      exact hc.2 h
  simp only [if_neg hcond]

/-- Traversal helper: a succeeding node (non-empty result, no error) with
    a `nextOnSuccess` child recurses into it with the returned subset. -/
lemma eval_success (nm : String) (fn : FilterFn)
    (onS onF onSF : Option FilterNode) (child : FilterNode)
    (req : LLMRequest) (pods res : List PodMetrics)
    (hfn : fn req pods = (res, none)) (hres : res ≠ [])
    (hchild : onS = some child) :
    FilterNode.eval (.mk nm fn onS onF onSF) req pods =
      child.eval req res := by
  subst hchild
  rw [FilterNode.eval, hfn]
  simp only [if_pos (⟨rfl, hres⟩ :
    (Option.isNone (none : Option Err) : Prop) ∧ res ≠ [])]

/-- Traversal helper: a node with no successors returns its function's
    result as-is. -/
lemma eval_leaf (nm : String) (fn : FilterFn) (req : LLMRequest)
    (pods : List PodMetrics) :
    FilterNode.eval (.mk nm fn none none none) req pods = fn req pods := by
  rcases hfn : fn req pods with ⟨res, err⟩
  rw [FilterNode.eval, hfn]
  by_cases hcond : (err.isNone : Prop) ∧ res ≠ []
  · simp only [if_pos hcond]
  · simp only [if_neg hcond]

/-- C6: for every filter node with a `nextOnFailure` child, if the node's
    own function yields an empty set or an error, the child is evaluated
    on the original input pod set; on success (non-empty, no error) with a
    `nextOnSuccess` child, the child is evaluated on the returned
    subset. -/
theorem filter_traversal_spec (nm : String) (fn : FilterFn)
    (onS onF onSF : Option FilterNode) (child : FilterNode)
    (req : LLMRequest) (pods res : List PodMetrics) (err : Option Err)
    (hfn : fn req pods = (res, err)) :
    ((err ≠ none ∨ res = []) → onF = some child →
      FilterNode.eval (.mk nm fn onS onF onSF) req pods =
        child.eval req pods) ∧
    (err = none → res ≠ [] → onS = some child →
      FilterNode.eval (.mk nm fn onS onF onSF) req pods =
        child.eval req res) := by
  constructor
  · intro hfail hchild
    exact eval_failure nm fn onS onF onSF child req pods res err hfn hfail hchild
  · intro herr hres hchild
    subst herr
    exact eval_success nm fn onS onF onSF child req pods res hfn hres hchild

/-- Concrete nodes and inputs used by the witnesses. -/
def alwaysEmptyFn : FilterFn := fun _ _ => ([], none)

def alwaysKeepFn : FilterFn := fun _ pods => (pods, none)

def reqW : LLMRequest := ⟨"m1", "m1", false⟩

def podW : Pod := ⟨"p1", "10.0.0.1:8000"⟩

def pmW : PodMetrics := ⟨podW, 0, 0, [], 1⟩

def childKeep : FilterNode := .mk "child" alwaysKeepFn none none none

/-- Witness for C6: a failing node hands the original pod set to its
    `nextOnFailure` child; a succeeding node hands the subset to its
    `nextOnSuccess` child. -/
theorem filter_traversal_spec_witness :
    FilterNode.eval (.mk "n" alwaysEmptyFn none (some childKeep) none)
      reqW [pmW] = childKeep.eval reqW [pmW] ∧
    FilterNode.eval (.mk "n" alwaysKeepFn (some childKeep) none none)
      reqW [pmW] = childKeep.eval reqW [pmW] := by
  constructor
  · exact (filter_traversal_spec "n" alwaysEmptyFn none (some childKeep) none
      childKeep reqW [pmW] [] none rfl).1 (Or.inr rfl) rfl
  · exact (filter_traversal_spec "n" alwaysKeepFn (some childKeep) none none
      childKeep reqW [pmW] [pmW] none rfl).2 rfl (by simp) rfl

/-- C1: for a non-critical request the root gate falls through to the
    sheddable branch; there, if no pod has `WaitingQueueSize ≤ 5` and
    `KVCacheUsagePercent < 0.8`, the branch returns the empty pod set with
    the resource-exhausted drop error; if at least one pod satisfies both
    bounds, the branch descends to the heavy
    `queueLoRAAndKVCacheFilter` on the admitted subset. -/
theorem sheddable_branch_spec (req : LLMRequest) (pods : List PodMetrics)
    (hcrit : req.critical = false) :
    defaultFilter.eval req pods = sheddableRequestFilter.eval req pods ∧
    ((∀ p ∈ pods, ¬ (p.waitingQueueSize ≤ queueThresholdCritical ∧
        p.kvCacheUsagePercent < kvCacheThreshold)) →
      sheddableRequestFilter.eval req pods =
        ([], some ⟨some .resourceExhausted,
          "dropping request due to limited backend resources"⟩)) ∧
    ((∃ p ∈ pods, p.waitingQueueSize ≤ queueThresholdCritical ∧
        p.kvCacheUsagePercent < kvCacheThreshold) →
      sheddableRequestFilter.eval req pods =
        queueLoRAAndKVCacheFilter.eval req
          (pods.filter (noQueueAndLessThanKVCacheThresholdPredicate
            queueThresholdCritical kvCacheThreshold req))) := by
  refine ⟨?_, ?_, ?_⟩
  · have hfn : toFilterFunc criticalRequestPredicate req pods = ([], none) := by
      simp [toFilterFunc, criticalRequestPredicate, hcrit]
    exact eval_failure _ _ _ _ _ _ req pods [] none hfn (Or.inr rfl) rfl
  · intro hnone
    have hfilter : pods.filter (noQueueAndLessThanKVCacheThresholdPredicate
        queueThresholdCritical kvCacheThreshold req) = [] := by
      rw [List.filter_eq_nil_iff]
      intro p hp
      have hnp := hnone p hp
      simp only [noQueueAndLessThanKVCacheThresholdPredicate]
      simpa using hnp
    have hfn : toFilterFunc (noQueueAndLessThanKVCacheThresholdPredicate
        queueThresholdCritical kvCacheThreshold) req pods = ([], none) := by
      simp [toFilterFunc, hfilter]
    have h1 : sheddableRequestFilter.eval req pods =
        dropRequestFilter.eval req pods :=
      eval_failure _ _ _ _ _ _ req pods [] none hfn (Or.inr rfl) rfl
    rw [h1]
    simp only [dropRequestFilter]
    rw [eval_leaf]
  · rintro ⟨p, hp, hcond⟩
    have hmem : p ∈ pods.filter (noQueueAndLessThanKVCacheThresholdPredicate
        queueThresholdCritical kvCacheThreshold req) := by
      rw [List.mem_filter]
      refine ⟨hp, ?_⟩
      simp only [noQueueAndLessThanKVCacheThresholdPredicate]
      simpa using hcond
    exact eval_success _ _ _ _ _ _ req pods _ rfl
      (List.ne_nil_of_mem hmem) rfl

/-- Witness for C1: with one overloaded pod (queue 10, KV 0.9) a sheddable
    request is dropped with the resource-exhausted error; with one idle pod
    (queue 0, KV 0) it descends to the heavy branch instead. -/
theorem sheddable_branch_spec_witness :
    defaultFilter.eval reqW [⟨podW, 10, 9/10, [], 1⟩] =
      ([], some ⟨some .resourceExhausted,
        "dropping request due to limited backend resources"⟩) ∧
    defaultFilter.eval reqW [pmW] =
      queueLoRAAndKVCacheFilter.eval reqW [pmW] := by
  constructor
  · have h := sheddable_branch_spec reqW [⟨podW, 10, 9/10, [], 1⟩] rfl
    rw [h.1]
    refine h.2.1 ?_
    intro p hp
    simp only [List.mem_singleton] at hp
    subst hp
    simp [queueThresholdCritical]
  · have h := sheddable_branch_spec reqW [pmW] rfl
    rw [h.1]
    have h2 := h.2.2 ⟨pmW, by simp, by constructor <;>
      simp [pmW, queueThresholdCritical, kvCacheThreshold]⟩
    rw [h2]
    congr 1
    simp [pmW, noQueueAndLessThanKVCacheThresholdPredicate,
      queueThresholdCritical, kvCacheThreshold]

/-- C2: whenever the filter tree returns a non-empty set with no error,
    `Schedule` returns the `Pod` of some element of that set, and every
    element of the set is the outcome for the random draw equal to its
    index (so the uniform `rand.Intn` draw makes the pick uniform over the
    set); whenever the tree returns an empty set without an error,
    `Schedule` returns the error "filter returned zero pods on success"
    rather than a pod. -/
theorem schedule_spec (filt : FilterNode) (req : LLMRequest)
    (allPods : List PodMetrics) (r : Nat) :
    (∀ res, filt.eval req allPods = (res, none) → res ≠ [] →
      (∃ p ∈ res, schedule filt req allPods r = .ok p.pod) ∧
      (∀ i : Fin res.length,
        schedule filt req allPods i.val = .ok (res.get i).pod)) ∧
    (filt.eval req allPods = ([], none) →
      schedule filt req allPods r =
        .error ⟨none, "filter returned zero pods on success"⟩) := by
  constructor
  · intro res heval hne
    have hlen : res.length ≠ 0 := fun h => hne (List.eq_nil_of_length_eq_zero h)
    constructor
    · refine ⟨res.get ⟨r % res.length,
        Nat.mod_lt r (Nat.pos_of_ne_zero hlen)⟩, ?_, ?_⟩
      · exact List.get_mem res _ _
      · simp [schedule, heval, hlen]
    · intro i
      have hmod : i.val % res.length = i.val := Nat.mod_eq_of_lt i.isLt
      simp [schedule, heval, hlen, hmod]
  · intro heval
    simp [schedule, heval]

/-- The trivial accept-all filter node used by witnesses. -/
def trivialFilter : FilterNode := .mk "accept" alwaysKeepFn none none none

/-- Witness for C2: with one pod the scheduler returns that pod; with an
    empty snapshot the accept-all tree yields an empty success and the
    zero-pods error surfaces. -/
theorem schedule_spec_witness :
    schedule trivialFilter reqW [pmW] 0 = .ok podW ∧
    schedule trivialFilter reqW [] 0 =
      .error ⟨none, "filter returned zero pods on success"⟩ := by
  have heval : trivialFilter.eval reqW [pmW] = ([pmW], none) := by
    simp only [trivialFilter]
    rw [eval_leaf]
    rfl
  have heval2 : trivialFilter.eval reqW [] = ([], none) := by
    simp only [trivialFilter]
    rw [eval_leaf]
    rfl
  constructor
  · have h := ((schedule_spec trivialFilter reqW [pmW] 0).1 [pmW] heval
      (by simp)).2 ⟨0, by simp⟩
    simpa [pmW] using h
  · exact (schedule_spec trivialFilter reqW [] 0).2 heval2

/-- C3: for every successfully scheduled request body, the emitted
    response sets exactly the two headers
    `{targetEndpointKey: pod.Address}` and
    `{Content-Length: decimal byte length of the emitted body}`, carries
    the (possibly rewritten) body as the body mutation, and carries
    dynamic metadata with the single field `targetEndpointKey ↦ pod
    address`; in particular the emitted `Content-Length` always equals the
    byte length of the emitted body. -/
theorem handler_response_shape (key : String)
    (fetch : String → Option InferenceModel) (filt : FilterNode)
    (pods : List PodMetrics) (dr pr : Nat) (body : String)
    (um : Option (List (String × JsonVal)))
    (out : ProcessingResponse × RequestContext)
    (hok : handleRequestBody key fetch filt pods dr pr body um = .ok out) :
    out.1.setHeaders = [⟨key, out.2.targetPod.address⟩,
      ⟨"Content-Length", toString out.1.bodyMutationBody.length⟩] ∧
    out.1.dynamicMetadata = [(key, out.2.targetPod.address)] := by
  simp only [handleRequestBody] at hok
  split at hok
  · exact Except.noConfusion hok
  · split at hok
    · split at hok
      · exact Except.noConfusion hok
      · split at hok
        · exact Except.noConfusion hok
        · split at hok
          · exact Except.noConfusion hok
          · injection hok with h
            subst h
            exact ⟨rfl, rfl⟩
    · exact Except.noConfusion hok

/-- Concrete one-model datastore used by the handler witnesses. -/
def fetchW : String → Option InferenceModel :=
  fun s => if s = "m1" then some ⟨"m1", "m1", none, []⟩ else none

/-- The outcome of the concrete witness run of the handler. -/
def outW : ProcessingResponse × RequestContext :=
  (⟨[⟨"k", "10.0.0.1:8000"⟩, ⟨"Content-Length", "1"⟩], "B",
    [("k", "10.0.0.1:8000")]⟩,
   ⟨"m1", "m1", 1, podW⟩)

/-- Witness for C3: a concrete passthrough request emits exactly the two
    headers and the single metadata field. -/
theorem handler_response_shape_witness :
    outW.1.setHeaders = [⟨"k", outW.2.targetPod.address⟩,
      ⟨"Content-Length", toString outW.1.bodyMutationBody.length⟩] ∧
    outW.1.dynamicMetadata = [("k", outW.2.targetPod.address)] :=
  handler_response_shape "k" fetchW trivialFilter [pmW] 0 0 "B"
    (some [("model", .str "m1")]) outW rfl

/-- C5: for every request body whose top-level model string does not
    resolve to an `InferenceModel` (`FetchModelData` returns nothing),
    `HandleRequestBody` fails with the model-not-found error and emits no
    mutation, and the result does not depend on the scheduler's filter
    tree, pod snapshot or random draws — the scheduler is never
    invoked. -/
theorem handler_unknown_model (key : String)
    (fetch : String → Option InferenceModel) (filt filt2 : FilterNode)
    (pods pods2 : List PodMetrics) (dr dr2 pr pr2 : Nat) (body : String)
    (rb : List (String × JsonVal)) (model : String)
    (hm : lookupField rb "model" = some (.str model))
    (hfetch : fetch model = none) :
    handleRequestBody key fetch filt pods dr pr body (some rb) =
      .error ⟨none,
        "error finding a model object in InferenceModel for input " ++ model⟩ ∧
    handleRequestBody key fetch filt pods dr pr body (some rb) =
      handleRequestBody key fetch filt2 pods2 dr2 pr2 body (some rb) := by
  constructor <;> simp [handleRequestBody, hm, hfetch]

/-- Witness for C5: the unknown model `m-xyz` is rejected with the
    not-found error, identically for two different scheduler
    environments. -/
theorem handler_unknown_model_witness :
    handleRequestBody "k" fetchW trivialFilter [pmW] 0 0 "B"
      (some [("model", .str "m-xyz")]) =
      .error ⟨none,
        "error finding a model object in InferenceModel for input m-xyz"⟩ ∧
    handleRequestBody "k" fetchW trivialFilter [pmW] 0 0 "B"
      (some [("model", .str "m-xyz")]) =
      handleRequestBody "k" fetchW dropRequestFilter [] 3 7 "B"
        (some [("model", .str "m-xyz")]) :=
  handler_unknown_model "k" fetchW trivialFilter dropRequestFilter
    [pmW] [] 0 3 0 7 "B" [("model", .str "m-xyz")] "m-xyz" rfl rfl

/-- Elimination of a successful `handleRequestBody` run: the body must
    have decoded, the model string resolved in the datastore, the target
    model resolved (weighted draw when `TargetModels` is non-empty,
    identity otherwise), the scheduler succeeded, and the output has
    exactly the constructed shape. -/
lemma handler_ok_elim (key : String)
    (fetch : String → Option InferenceModel) (filt : FilterNode)
    (pods : List PodMetrics) (dr pr : Nat) (body : String)
    (um : Option (List (String × JsonVal)))
    (out : ProcessingResponse × RequestContext)
    (hok : handleRequestBody key fetch filt pods dr pr body um = .ok out) :
    ∃ rb model mo modelName targetPod,
      um = some rb ∧
      lookupField rb "model" = some (.str model) ∧
      fetch model = some mo ∧
      ((mo.targetModels.length > 0 ∧
          randomWeightedDraw mo.targetModels dr = modelName ∧
          modelName ≠ "") ∨
        (¬ mo.targetModels.length > 0 ∧ modelName = model)) ∧
      schedule filt ⟨model, modelName, isCritical mo⟩ pods pr =
        .ok targetPod ∧
      out = (⟨[⟨key, targetPod.address⟩,
               ⟨"Content-Length", toString (if model = modelName then body
                 else jsonMarshal (.obj (setField rb "model"
                   (.str modelName)))).length⟩],
              (if model = modelName then body
                else jsonMarshal (.obj (setField rb "model"
                  (.str modelName)))),
              [(key, targetPod.address)]⟩,
             ⟨model, modelName, body.length, targetPod⟩) := by
  simp only [handleRequestBody] at hok
  split at hok
  · exact Except.noConfusion hok
  next rb =>
    split at hok
    next model hmodel =>
      split at hok
      · exact Except.noConfusion hok
      next mo hfetch =>
        split at hok
        · exact Except.noConfusion hok
        next modelName hres =>
          split at hok
          · exact Except.noConfusion hok
          next targetPod hsched =>
            injection hok with h
            subst h
            refine ⟨rb, model, mo, modelName, targetPod, rfl, hmodel, hfetch,
              ?_, hsched, rfl⟩
            by_cases htm : mo.targetModels.length > 0
            · rw [if_pos htm] at hres
              by_cases hmn :
                  randomWeightedDraw mo.targetModels dr = ""
              · rw [if_pos hmn] at hres
                exact Except.noConfusion hres
              · rw [if_neg hmn] at hres
                injection hres with h2
                subst h2
                exact Or.inl ⟨htm, rfl, hmn⟩
            · rw [if_neg htm] at hres
              injection hres with h2
              subst h2
              exact Or.inr ⟨htm, rfl⟩
    · exact Except.noConfusion hok

/-- C4: whenever the resolved target model equals the requested model —
    in particular whenever the looked-up `InferenceModel` has an empty
    `TargetModels` list — the body emitted by `HandleRequestBody` is
    byte-identical to the incoming body; only when the resolved target
    model differs is the body re-serialized with the top-level "model"
    field replaced by the resolved target model. -/
theorem handler_body_rewrite (key : String)
    (fetch : String → Option InferenceModel) (filt : FilterNode)
    (pods : List PodMetrics) (dr pr : Nat) (body : String)
    (rb : List (String × JsonVal)) (model : String) (mo : InferenceModel)
    (hm : lookupField rb "model" = some (.str model))
    (hfetch : fetch model = some mo) :
    (mo.targetModels = [] → ∀ out,
      handleRequestBody key fetch filt pods dr pr body (some rb) = .ok out →
      out.1.bodyMutationBody = body) ∧
    (∀ mn, randomWeightedDraw mo.targetModels dr = mn → mn = model → ∀ out,
      handleRequestBody key fetch filt pods dr pr body (some rb) = .ok out →
      out.1.bodyMutationBody = body) ∧
    (∀ mn, mo.targetModels ≠ [] →
      randomWeightedDraw mo.targetModels dr = mn → mn ≠ model → ∀ out,
      handleRequestBody key fetch filt pods dr pr body (some rb) = .ok out →
      out.1.bodyMutationBody =
        jsonMarshal (.obj (setField rb "model" (.str mn)))) := by
  refine ⟨?_, ?_, ?_⟩
  · intro htm out hok
    obtain ⟨rb', model', mo', mn', tp, hum, hm', hfetch', hdisj, hsched,
      hout⟩ := handler_ok_elim _ _ _ _ _ _ _ _ _ hok
    injection hum with hrb
    subst hrb
    rw [hm] at hm'
    injection hm' with h1
    injection h1 with h2
    subst h2
    rw [hfetch] at hfetch'
    injection hfetch' with h3
    subst h3
    rcases hdisj with ⟨hlen, _, _⟩ | ⟨_, hmn'⟩
    · rw [htm] at hlen
      simp at hlen
    · subst hmn'
      subst hout
      simp
  · intro mn hdraw heq out hok
    obtain ⟨rb', model', mo', mn', tp, hum, hm', hfetch', hdisj, hsched,
      hout⟩ := handler_ok_elim _ _ _ _ _ _ _ _ _ hok
    injection hum with hrb
    subst hrb
    rw [hm] at hm'
    injection hm' with h1
    injection h1 with h2
    subst h2
    rw [hfetch] at hfetch'
    injection hfetch' with h3
    subst h3
    rcases hdisj with ⟨_, hdraw', _⟩ | ⟨_, hmn'⟩
    · rw [hdraw] at hdraw'
      subst hdraw'
      subst heq
      subst hout
      simp
    · subst hmn'
      subst hout
      simp
  · intro mn hne hdraw hmodelne out hok
    obtain ⟨rb', model', mo', mn', tp, hum, hm', hfetch', hdisj, hsched,
      hout⟩ := handler_ok_elim _ _ _ _ _ _ _ _ _ hok
    injection hum with hrb
    subst hrb
    rw [hm] at hm'
    injection hm' with h1
    injection h1 with h2
    subst h2
    rw [hfetch] at hfetch'
    injection hfetch' with h3
    subst h3
    rcases hdisj with ⟨_, hdraw', _⟩ | ⟨hlen, _⟩
    · rw [hdraw] at hdraw'
      subst hdraw'
      subst hout
      simp [if_neg (Ne.symm hmodelne)]
    · exact absurd (List.length_eq_zero.mp (by omega)) hne

/-- The rewritten body of the witness rewrite run. -/
def bodyW2 : String := jsonMarshal (.obj [("model", JsonVal.str "m1-b")])

/-- A datastore whose one model resolves `m1` through a weighted target
    list `[{m1-b, 10}]`. -/
def fetchW2 : String → Option InferenceModel :=
  fun s => if s = "m1" then some ⟨"m1", "m1", none, [⟨"m1-b", 10⟩]⟩ else none

/-- The outcome of the witness rewrite run. -/
def outW2 : ProcessingResponse × RequestContext :=
  (⟨[⟨"k", "10.0.0.1:8000"⟩, ⟨"Content-Length", toString bodyW2.length⟩],
    bodyW2, [("k", "10.0.0.1:8000")]⟩, ⟨"m1", "m1-b", 1, podW⟩)

/-- Witness for C4: with an empty `TargetModels` list the emitted body is
    the incoming body unchanged; with resolution to `m1-b ≠ m1` the
    emitted body is the re-serialized object with the "model" field
    replaced. -/
theorem handler_body_rewrite_witness :
    outW.1.bodyMutationBody = "B" ∧
    outW2.1.bodyMutationBody =
      jsonMarshal (.obj (setField [("model", JsonVal.str "m1")] "model"
        (.str "m1-b"))) := by
  constructor
  · exact (handler_body_rewrite "k" fetchW trivialFilter [pmW] 0 0 "B"
      [("model", .str "m1")] "m1" ⟨"m1", "m1", none, []⟩ rfl rfl).1
      rfl outW rfl
  · exact (handler_body_rewrite "k" fetchW2 trivialFilter [pmW] 0 0 "B"
      [("model", .str "m1")] "m1" ⟨"m1", "m1", none, [⟨"m1-b", 10⟩]⟩
      rfl rfl).2.2 "m1-b" (by simp) rfl (by simp) outW2 rfl

/-- Reading a key other than the written one is unchanged by
    `setField`. -/
lemma lookupField_setField_ne (rb : List (String × JsonVal))
    (key k : String) (v : JsonVal) (h : k ≠ key) :
    lookupField (setField rb key v) k = lookupField rb k := by
  have hkey : ¬ key = k := fun he => h he.symm
  induction rb with
  | nil => simp [setField, lookupField, hkey]
  | cons p rest ih =>
    rcases p with ⟨k', w⟩
    by_cases hk : k' = key
    · subst hk
      simp [setField, lookupField, hkey]
    · simp [setField, lookupField, hk, ih]

/-- Reading the written key after `setField` yields the written value. -/
lemma lookupField_setField_self (rb : List (String × JsonVal))
    (key : String) (v : JsonVal) :
    lookupField (setField rb key v) key = some v := by
  induction rb with
  | nil => simp [setField, lookupField]
  | cons p rest ih =>
    rcases p with ⟨k', w⟩
    by_cases hk : k' = key
    · subst hk
      simp [setField, lookupField]
    · simp [setField, lookupField, hk, ih]

/-- `setField` on a present key preserves the key list. -/
lemma setField_keys (rb : List (String × JsonVal)) (key : String)
    (v : JsonVal) (h : (lookupField rb key).isSome) :
    (setField rb key v).map Prod.fst = rb.map Prod.fst := by
  induction rb with
  | nil => simp [lookupField] at h
  | cons p rest ih =>
    rcases p with ⟨k', w⟩
    by_cases hk : k' = key
    · subst hk
      simp [setField]
    · have h' : (lookupField rest key).isSome := by
        simpa [lookupField, hk] using h
      simp [setField, hk, ih h']

/-- Shared helper: on the rewrite path (non-empty `TargetModels`, draw
    different from the requested model) a successful handler run emits the
    marshalled object with the "model" field replaced. -/
lemma handler_rewrite_body (key : String)
    (fetch : String → Option InferenceModel) (filt : FilterNode)
    (pods : List PodMetrics) (dr pr : Nat) (body : String)
    (rb : List (String × JsonVal)) (model : String) (mo : InferenceModel)
    (mn : String)
    (hm : lookupField rb "model" = some (.str model))
    (hfetch : fetch model = some mo)
    (hne : mo.targetModels ≠ [])
    (hdraw : randomWeightedDraw mo.targetModels dr = mn)
    (hmodelne : mn ≠ model) :
    ∀ out,
      handleRequestBody key fetch filt pods dr pr body (some rb) = .ok out →
      out.1.bodyMutationBody =
        jsonMarshal (.obj (setField rb "model" (.str mn))) := by
  intro out hok
  obtain ⟨rb', model', mo', mn', tp, hum, hm', hfetch', hdisj, hsched,
    hout⟩ := handler_ok_elim _ _ _ _ _ _ _ _ _ hok
  injection hum with hrb
  subst hrb
  rw [hm] at hm'
  injection hm' with h1
  injection h1 with h2
  subst h2
  rw [hfetch] at hfetch'
  injection hfetch' with h3
  subst h3
  rcases hdisj with ⟨_, hdraw', _⟩ | ⟨hlen, _⟩
  · rw [hdraw] at hdraw'
    subst hdraw'
    subst hout
    simp [if_neg (Ne.symm hmodelne)]
  · exact absurd (List.length_eq_zero.mp (by omega)) hne

/-- C10: whenever `HandleRequestBody` rewrites the body, the emitted body
    is the serialization of the decoded object with only the "model"
    field's value changed: every other top-level field reads back with an
    equal value, the key list is unchanged (no field added or removed),
    and "model" reads back as the resolved target model. -/
theorem handler_rewrite_frame (key : String)
    (fetch : String → Option InferenceModel) (filt : FilterNode)
    (pods : List PodMetrics) (dr pr : Nat) (body : String)
    (rb : List (String × JsonVal)) (model : String) (mo : InferenceModel)
    (mn : String)
    (hm : lookupField rb "model" = some (.str model))
    (hfetch : fetch model = some mo)
    (hne : mo.targetModels ≠ [])
    (hdraw : randomWeightedDraw mo.targetModels dr = mn)
    (hmodelne : mn ≠ model) :
    (∀ out,
      handleRequestBody key fetch filt pods dr pr body (some rb) = .ok out →
      out.1.bodyMutationBody =
        jsonMarshal (.obj (setField rb "model" (.str mn)))) ∧
    (∀ k, k ≠ "model" →
      lookupField (setField rb "model" (.str mn)) k = lookupField rb k) ∧
    (setField rb "model" (.str mn)).map Prod.fst = rb.map Prod.fst ∧
    lookupField (setField rb "model" (.str mn)) "model" =
      some (.str mn) := by
  refine ⟨handler_rewrite_body key fetch filt pods dr pr body rb model mo mn
    hm hfetch hne hdraw hmodelne, ?_, ?_, ?_⟩
  · intro k hk
    exact lookupField_setField_ne rb "model" k (.str mn) hk
  · exact setField_keys rb "model" (.str mn) (by rw [hm]; rfl)
  · exact lookupField_setField_self rb "model" (.str mn)

/-- The rewritten two-field body of the C10 witness run. -/
def bodyW3 : String :=
  jsonMarshal (.obj [("model", JsonVal.str "m1-b"),
    ("prompt", JsonVal.str "hi")])

/-- The outcome of the C10 witness run. -/
def outW3 : ProcessingResponse × RequestContext :=
  (⟨[⟨"k", "10.0.0.1:8000"⟩, ⟨"Content-Length", toString bodyW3.length⟩],
    bodyW3, [("k", "10.0.0.1:8000")]⟩, ⟨"m1", "m1-b", 1, podW⟩)

/-- Witness for C10: on a two-field body `{"model": m1, "prompt": hi}`
    rewritten to `m1-b`, the "prompt" field and the key list survive
    unchanged and only "model" is updated. -/
theorem handler_rewrite_frame_witness :
    (outW3.1.bodyMutationBody =
        jsonMarshal (.obj (setField
          [("model", JsonVal.str "m1"), ("prompt", JsonVal.str "hi")]
          "model" (.str "m1-b")))) ∧
    lookupField (setField
      [("model", JsonVal.str "m1"), ("prompt", JsonVal.str "hi")]
      "model" (.str "m1-b")) "prompt" = some (.str "hi") ∧
    (setField [("model", JsonVal.str "m1"), ("prompt", JsonVal.str "hi")]
      "model" (.str "m1-b")).map Prod.fst = ["model", "prompt"] ∧
    lookupField (setField
      [("model", JsonVal.str "m1"), ("prompt", JsonVal.str "hi")]
      "model" (.str "m1-b")) "model" = some (.str "m1-b") := by
  have h := handler_rewrite_frame "k" fetchW2 trivialFilter [pmW] 0 0 "B"
    [("model", .str "m1"), ("prompt", .str "hi")] "m1"
    ⟨"m1", "m1", none, [⟨"m1-b", 10⟩]⟩ "m1-b" rfl rfl (by simp) rfl
    (by simp)
  refine ⟨h.1 outW3 rfl, ?_, by simp [setField], h.2.2.2⟩
  have h2 := h.2.1 "prompt" (by simp)
  rw [h2]
  rfl

/-- A random value below the head weight selects the head entry. -/
lemma drawLoop_head (t : TargetModel) (rest : List TargetModel) (r : Nat)
    (hr : r < t.weight) : drawLoop (t :: rest) r = t.name := by
  simp [drawLoop, hr]

/-- A random value shifted past the head weight selects from the tail. -/
lemma drawLoop_shift (t : TargetModel) (rest : List TargetModel) (i : Nat) :
    drawLoop (t :: rest) (t.weight + i) = drawLoop rest i := by
  have h : ¬ t.weight + i < t.weight := by omega
  simp [drawLoop, h]

/-- Any in-range random value selects some entry's name. -/
lemma drawLoop_mem (tms : List TargetModel) (r : Nat)
    (h : r < weightSum tms) : ∃ t ∈ tms, drawLoop tms r = t.name := by
  induction tms generalizing r with
  | nil => simp [weightSum] at h
  | cons t rest ih =>
    by_cases hr : r < t.weight
    · exact ⟨t, List.mem_cons_self t rest, drawLoop_head t rest r hr⟩
    · have h' : r - t.weight < weightSum rest := by
        simp only [weightSum, List.map_cons, List.sum_cons] at h
        simp only [weightSum]
        omega
      obtain ⟨u, hu, he⟩ := ih (r - t.weight) h'
      exact ⟨u, List.mem_cons_of_mem t hu, by simp [drawLoop, hr, he]⟩

/-- The number of random values in `[0, Σ weights)` selecting a given
    entry equals that entry's weight (for pairwise-distinct names). -/
lemma drawLoop_count (tms : List TargetModel)
    (hnodup : (tms.map (·.name)).Nodup) (t : TargetModel) (ht : t ∈ tms) :
    ((List.range (weightSum tms)).countP
      (fun r => decide (drawLoop tms r = t.name))) = t.weight := by
  induction tms with
  | nil => cases ht
  | cons t0 rest ih =>
    have hsum : weightSum (t0 :: rest) = t0.weight + weightSum rest := by
      simp [weightSum]
    have hnd1 : t0.name ∉ rest.map (·.name) := (List.nodup_cons.mp hnodup).1
    have hnd2 : (rest.map (·.name)).Nodup := (List.nodup_cons.mp hnodup).2
    rw [hsum, List.range_add, List.countP_append, List.countP_map]
    rcases List.mem_cons.mp ht with h0 | hrest
    · subst h0
      have c1 : ((List.range t.weight).countP
          (fun r => decide (drawLoop (t :: rest) r = t.name))) = t.weight := by
        have hall : ∀ r ∈ List.range t.weight,
            decide (drawLoop (t :: rest) r = t.name) = true := by
          intro r hr
          simp [drawLoop_head t rest r (List.mem_range.mp hr)]
        rw [List.countP_eq_length.mpr hall, List.length_range]
      have c2 : ((List.range (weightSum rest)).countP
          ((fun r => decide (drawLoop (t :: rest) r = t.name)) ∘
            (t.weight + ·))) = 0 := by
        rw [List.countP_eq_zero]
        intro i hi
        obtain ⟨u, hu, he⟩ :=
          drawLoop_mem rest i (List.mem_range.mp hi)
        have hne : u.name ≠ t.name := by
          intro heq
          exact hnd1 (heq ▸ List.mem_map_of_mem (·.name) hu)
        simp [drawLoop_shift, he, hne]
      rw [c1, c2]
      omega
    · have hne0 : t0.name ≠ t.name := by
        intro heq
        exact hnd1 (heq ▸ List.mem_map_of_mem (·.name) hrest)
      have c1 : ((List.range t0.weight).countP
          (fun r => decide (drawLoop (t0 :: rest) r = t.name))) = 0 := by
        rw [List.countP_eq_zero]
        intro r hr
        simp [drawLoop_head t0 rest r (List.mem_range.mp hr), hne0]
      have c2 : ((List.range (weightSum rest)).countP
          ((fun r => decide (drawLoop (t0 :: rest) r = t.name)) ∘
            (t0.weight + ·))) = t.weight := by
        have hcongr : ∀ i ∈ List.range (weightSum rest),
            (((fun r => decide (drawLoop (t0 :: rest) r = t.name)) ∘
              (t0.weight + ·)) i = true ↔
              (fun i => decide (drawLoop rest i = t.name)) i = true) := by
          intro i _
          simp [drawLoop_shift]
        rw [List.countP_congr hcongr]
        exact ih hnd2 hrest
      rw [c1, c2]
      omega

/-- C7: for a non-empty `TargetModels` list (distinct names, positive
    total weight), the target model is picked by a weighted random draw —
    the number of random values in `[0, Σ weights)` resolving to an entry
    equals that entry's weight, so each entry is drawn with probability
    `weight_i / Σ weight_j` under the uniform per-draw random value; every
    positively weighted entry is reachable, two positively weighted
    distinct entries give differing outcomes for some pair of draws (two
    independent invocations are not forced to coincide), and a successful
    handler run with these targets resolves exactly to
    `randomWeightedDraw`. -/
theorem weighted_draw_spec (tms : List TargetModel)
    (hpos : 0 < weightSum tms) (hnodup : (tms.map (·.name)).Nodup) :
    (∀ t ∈ tms, ((List.range (weightSum tms)).countP
        (fun r => decide (randomWeightedDraw tms r = t.name))) =
        t.weight) ∧
    (∀ t ∈ tms, 0 < t.weight → ∃ r, randomWeightedDraw tms r = t.name) ∧
    (∀ t u, t ∈ tms → u ∈ tms → 0 < t.weight → 0 < u.weight →
      t.name ≠ u.name →
      ∃ r1 r2, randomWeightedDraw tms r1 ≠ randomWeightedDraw tms r2) ∧
    (∀ key fetch filt pods dr pr body rb model mo out,
      lookupField rb "model" = some (JsonVal.str model) →
      fetch model = some mo → mo.targetModels = tms →
      handleRequestBody key fetch filt pods dr pr body (some rb) =
        .ok out →
      out.2.resolvedTargetModel = randomWeightedDraw tms dr) := by
  have hcount : ∀ t ∈ tms, ((List.range (weightSum tms)).countP
      (fun r => decide (randomWeightedDraw tms r = t.name))) = t.weight := by
    intro t ht
    have hcongr : ∀ r ∈ List.range (weightSum tms),
        (decide (randomWeightedDraw tms r = t.name) = true ↔
          decide (drawLoop tms r = t.name) = true) := by
      intro r hr
      have hmod : r % weightSum tms = r :=
        Nat.mod_eq_of_lt (List.mem_range.mp hr)
      simp [randomWeightedDraw, Nat.pos_iff_ne_zero.mp hpos, hmod]
    rw [List.countP_congr hcongr]
    exact drawLoop_count tms hnodup t ht
  have hreach : ∀ t ∈ tms, 0 < t.weight →
      ∃ r, randomWeightedDraw tms r = t.name := by
    intro t ht hw
    have hc := hcount t ht
    have hp : 0 < (List.range (weightSum tms)).countP
        (fun r => decide (randomWeightedDraw tms r = t.name)) := by
      omega
    obtain ⟨r, _, hr⟩ := List.countP_pos_iff.mp hp
    exact ⟨r, of_decide_eq_true hr⟩
  refine ⟨hcount, hreach, ?_, ?_⟩
  · intro t u ht hu hwt hwu hne
    obtain ⟨r1, h1⟩ := hreach t ht hwt
    obtain ⟨r2, h2⟩ := hreach u hu hwu
    exact ⟨r1, r2, by rw [h1, h2]; exact hne⟩
  · intro key fetch filt pods dr pr body rb model mo out hm hfetch htm hok
    obtain ⟨rb', model', mo', mn', tp, hum, hm', hfetch', hdisj, hsched,
      hout⟩ := handler_ok_elim _ _ _ _ _ _ _ _ _ hok
    injection hum with hrb
    subst hrb
    rw [hm] at hm'
    injection hm' with h1
    injection h1 with h2
    subst h2
    rw [hfetch] at hfetch'
    injection hfetch' with h3
    subst h3
    subst htm
    rcases hdisj with ⟨_, hdraw', _⟩ | ⟨hlen, _⟩
    · subst hout
      simpa using hdraw'.symm
    · have : mo.targetModels = [] := List.length_eq_zero.mp (by omega)
      rw [this] at hpos
      simp [weightSum] at hpos

/-- Witness for C7: for `TargetModels = [{A,1},{B,3}]`, exactly 1 of the 4
    residues draws `A` and exactly 3 draw `B`, and `B` is reachable. -/
theorem weighted_draw_spec_witness :
    ((List.range (weightSum [⟨"A", 1⟩, ⟨"B", 3⟩])).countP
      (fun r => decide (randomWeightedDraw [⟨"A", 1⟩, ⟨"B", 3⟩] r =
        "A"))) = 1 ∧
    ((List.range (weightSum [⟨"A", 1⟩, ⟨"B", 3⟩])).countP
      (fun r => decide (randomWeightedDraw [⟨"A", 1⟩, ⟨"B", 3⟩] r =
        "B"))) = 3 ∧
    ∃ r, randomWeightedDraw [⟨"A", 1⟩, ⟨"B", 3⟩] r = "B" := by
  have h := weighted_draw_spec [⟨"A", 1⟩, ⟨"B", 3⟩] (by decide) (by simp)
  exact ⟨h.1 ⟨"A", 1⟩ (by simp), h.1 ⟨"B", 3⟩ (by simp),
    h.2.1 ⟨"B", 3⟩ (by simp) (by decide)⟩

end InfExt
